import Mathlib

/-!
# sphinx_exporter: the scrape-and-translate pipeline

A shallow embedding of `collector/collector.go`, `collector/global_status.go` and
`exporter/sphinx_exporter.go` (whose `scrape` and `Collect` are the same, line for line, as
those of the root `sphinx_exporter.go`), followed by theorems about it.

Go strings and `sql.RawBytes` are modelled by `String`, i.e. by their sequence of runes.
The library functions the code calls (`regexp`, `strconv.ParseFloat`, `strings.ToLower`,
`strings.HasPrefix`, `prometheus.MustNewConstMetric`, `database/sql`) are modelled in the
first part of the file; each model says what it follows.
-/

namespace SphinxExporter

/-! ## float64 -/

/-- A `float64` value, kept exact: `fin q` stands for the float64 nearest to the rational
`q` (every integer below `2^53` is its own nearest float64). The sign of zero is not
tracked. -/
inductive Float64 where
  | fin (q : ℚ)
  | inf (neg : Bool)
  | nan
  deriving DecidableEq

/-! ## regexp -/

/-- Character classes used by `logRE`: `.` (any rune but a newline, the `s` flag being off),
an escaped literal, and `\d` (ASCII digits). -/
inductive Cls where
  | anyNotNL
  | lit (c : Char)
  | digit
  deriving DecidableEq

/-- Pattern items: one rune of a class, the greedy `+` of a class, and `$`, which without
the `m` flag matches at the end of the text only. -/
inductive Re where
  | cls (k : Cls)
  | plus (k : Cls)
  | eot
  deriving DecidableEq

/-- Whether a rune belongs to a class. -/
def Cls.test : Cls → Char → Bool
  | .anyNotNL, c => c != '\n'
  | .lit d, c => c == d
  | .digit, c => c.isDigit

/-- Greedy `k+` followed by the continuation `cont`: take one rune of the class, prefer to
stay in the loop, and fall back to the continuation when the longer attempt fails. The
result is the matched text. -/
def plusLoop (k : Cls) (cont : List Char → Option (List Char)) :
    List Char → Option (List Char)
  | [] => none
  | c :: s =>
    if k.test c then
      match plusLoop k cont s with
      | some m => some (c :: m)
      | none => (cont s).map (fun m => c :: m)
    else none

/-- Match a pattern (a concatenation of items) at the start of the text, with the
preferences of a backtracking engine (Go's leftmost-first semantics). -/
def matchHere : List Re → List Char → Option (List Char)
  | [], _ => some []
  | .eot :: rs, s => if s.isEmpty then matchHere rs s else none
  | .cls k :: rs, s =>
    match s with
    | [] => none
    | c :: s1 => if k.test c then (matchHere rs s1).map (fun m => c :: m) else none
  | .plus k :: rs, s => plusLoop k (matchHere rs) s

/-- Leftmost match over the start offsets, as `(*Regexp).Find` searches: the text of the
whole match, or `none` (Go's nil) when there is none. -/
def findFrom (re : List Re) : List Char → Option (List Char)
  | [] => matchHere re []
  | c :: s =>
    match matchHere re (c :: s) with
    | some m => some m
    | none => findFrom re s

/-- The method `(*Regexp).Find`. -/
def Find (re : List Re) (b : String) : Option String :=
  (findFrom re b.data).map String.mk

/-! ## strconv.ParseFloat

Follows `strconv/atof.go` (`special`, `readFloat`, `underscoreOK`, `atof64`, `ParseFloat`)
of Go 1.13 and later. -/

/-- The two errors of `strconv`. -/
inductive NumError where
  | ErrSyntax
  | ErrRange
  deriving DecidableEq

/-- Letters that are hexadecimal digits: `'a' <= lower(c) && lower(c) <= 'f'`. -/
def isHexLetter (c : Char) : Bool :=
  ('a' ≤ c && c ≤ 'f') || ('A' ≤ c && c ≤ 'F')

/-- Value of a hexadecimal letter: `lower(c) - 'a' + 10`. -/
def hexLetterVal (c : Char) : Nat :=
  c.toLower.toNat - 97 + 10

/-- The function `commonPrefixLenIgnoreCase`; `pre` is lower-case. -/
def commonPrefixLenIgnoreCase : List Char → List Char → Nat
  | c :: s, p :: ps => if c.toLower = p then commonPrefixLenIgnoreCase s ps + 1 else 0
  | _, _ => 0

/-- The `'i', 'I'` case of `special`, which the sign case falls through to. -/
def specialInf (neg : Bool) (nsign : Nat) (s : List Char) : Option (Float64 × Nat) :=
  let n := commonPrefixLenIgnoreCase s "infinity".data
  let n := if 3 < n ∧ n < 8 then 3 else n
  if n = 3 ∨ n = 8 then some (.inf neg, nsign + n) else none

/-- The function `special`: infinities and NaN, with the number of bytes read. -/
def special (s : List Char) : Option (Float64 × Nat) :=
  match s with
  | [] => none
  | c :: t =>
    if c = '+' ∨ c = '-' then specialInf (c == '-') 1 t
    else if c = 'i' ∨ c = 'I' then specialInf false 0 s
    else if c = 'n' ∨ c = 'N' then
      if commonPrefixLenIgnoreCase s "nan".data = 3 then some (.nan, 3) else none
    else none

/-- State of the digit loop of `readFloat`. The mantissa keeps every digit (Go keeps 19 of
them and re-reads the text when some were dropped, so that the result is the correctly
rounded value of the whole literal). -/
structure Digits where
  mantissa : Nat
  nd : Nat
  dp : Int
  sawdot : Bool
  sawdigits : Bool
  underscores : Bool

/-- The digit loop of `readFloat` (`loop:`), returning the state and the unread text. -/
def readDigits (base : Nat) : Digits → List Char → Digits × List Char
  | st, [] => (st, [])
  | st, c :: cs =>
    if c = '_' then readDigits base { st with underscores := true } cs
    else if c = '.' then
      if st.sawdot then (st, c :: cs)
      else readDigits base { st with sawdot := true, dp := st.nd } cs
    else if c.isDigit then
      if c = '0' ∧ st.nd = 0 then
        readDigits base { st with sawdigits := true, dp := st.dp - 1 } cs
      else
        readDigits base { st with sawdigits := true, nd := st.nd + 1,
                                   mantissa := st.mantissa * base + (c.toNat - 48) } cs
    else if base = 16 ∧ isHexLetter c then
      readDigits base { st with sawdigits := true, nd := st.nd + 1,
                                 mantissa := st.mantissa * 16 + hexLetterVal c } cs
    else (st, c :: cs)

/-- The exponent loop of `readFloat`: digits and underscores, the exponent capped as in Go
(`if e < 10000`). Returns the exponent, whether an underscore was seen, and the unread
text. -/
def readExpDigits : Nat → Bool → List Char → Nat × Bool × List Char
  | e, us, [] => (e, us, [])
  | e, us, c :: cs =>
    if c = '_' then readExpDigits e true cs
    else if c.isDigit then
      readExpDigits (if e < 10000 then e * 10 + (c.toNat - 48) else e) us cs
    else (e, us, c :: cs)

/-- The loop of `underscoreOK`; `saw` is `'^'`, `'0'`, `'_'` or `'!'`. -/
def underscoreLoop (hex : Bool) : Char → List Char → Bool
  | saw, [] => saw != '_'
  | saw, c :: cs =>
    if c.isDigit || (hex && isHexLetter c) then underscoreLoop hex '0' cs
    else if c = '_' then
      if saw != '0' then false else underscoreLoop hex '_' cs
    else if saw = '_' then false
    else underscoreLoop hex '!' cs

/-- The function `underscoreOK`: underscores only between digits or after a base prefix. -/
def underscoreOK (s : List Char) : Bool :=
  let s1 := match s with
    | [] => s
    | c :: t => if c = '-' ∨ c = '+' then t else s
  match s1 with
  | z :: x :: t =>
    if z = '0' ∧ (x.toLower = 'b' ∨ x.toLower = 'o' ∨ x.toLower = 'x') then
      underscoreLoop (x.toLower == 'x') '0' t
    else underscoreLoop false '^' s1
  | _ => underscoreLoop false '^' s1

/-- What `readFloat` hands over: the literal is `mantissa * base ^ exp`, base 2 when `hex`. -/
structure FloatLit where
  mantissa : Nat
  exp : Int
  neg : Bool
  hex : Bool
  deriving DecidableEq

/-- The optional exponent of `readFloat`, after the digit loop left `s` unread: the shift
of the decimal point, whether an underscore was seen, and the unread text; `none` is the
early `return` with `ok` false. -/
def readExp (hex : Bool) (s : List Char) : Option (Int × Bool × List Char) :=
  match s with
  | [] => if hex then none else some (0, false, [])
  | c :: s1 =>
    if c.toLower = (if hex then 'p' else 'e') then
      match s1 with
      | [] => none
      | d :: s2 =>
        let esign : Int := if d = '-' then -1 else 1
        let s3 := if d = '+' ∨ d = '-' then s2 else s1
        match s3 with
        | [] => none
        | f :: _ =>
          if f.isDigit then
            let r := readExpDigits 0 false s3
            some ((r.1 : Int) * esign, r.2.1, r.2.2)
          else none
    else if hex then none
    else some (0, false, s)

/-- The function `readFloat`: the literal and the number of bytes read, `none` when `ok`
is false. -/
def readFloat (s : List Char) : Option (FloatLit × Nat) :=
  match s with
  | [] => none
  | c0 :: t0 =>
    let neg := c0 == '-'
    let s1 := if c0 = '+' ∨ c0 = '-' then t0 else s
    let hex := match s1 with
      | z :: x :: _ :: _ => z == '0' && x.toLower == 'x'
      | _ => false
    let s2 := if hex then s1.drop 2 else s1
    let base := if hex then 16 else 10
    let r := readDigits base ⟨0, 0, 0, false, false, false⟩ s2
    let d := r.1
    if !d.sawdigits then none
    else
      let dp0 : Int := if d.sawdot then d.dp else d.nd
      let dp1 : Int := if hex then dp0 * 4 else dp0
      let ndMant : Int := if hex then (d.nd : Int) * 4 else d.nd
      match readExp hex r.2 with
      | none => none
      | some (shift, us, rest) =>
        let exp : Int := if d.mantissa ≠ 0 then dp1 + shift - ndMant else 0
        let n := s.length - rest.length
        if (d.underscores || us) && !underscoreOK (s.take n) then none
        else some (⟨d.mantissa, exp, neg, hex⟩, n)

/-- Rounding to float64 with its range check: a literal whose magnitude rounds beyond the
largest float64 (at or above `2^1024 - 2^970`) gives an infinity and `ErrRange`. -/
def FloatLit.toFloat64 (l : FloatLit) : Float64 × Option NumError :=
  let q : ℚ := (l.mantissa : ℚ) * (if l.hex then 2 else 10) ^ l.exp
  if 2 ^ 1024 - 2 ^ 970 ≤ q then (.inf l.neg, some .ErrRange)
  else (.fin (if l.neg then -q else q), none)

/-- The function `atof64`: value, bytes read, error. -/
def atof64 (s : List Char) : Float64 × Nat × Option NumError :=
  match special s with
  | some (val, n) => (val, n, none)
  | none =>
    match readFloat s with
    | none => (.fin 0, 0, some .ErrSyntax)
    | some (l, n) => ((l.toFloat64).1, n, (l.toFloat64).2)

/-- The function `strconv.ParseFloat(s, 64)`. -/
def ParseFloat (s : String) : Float64 × Option NumError :=
  let r := atof64 s.data
  if r.2.1 ≠ s.length ∧ r.2.2 ≠ some .ErrSyntax then (.fin 0, some .ErrSyntax)
  else (r.1, r.2.2)

/-! ## collector/collector.go -/

/-- The pattern `.+\.(\d+)$` of `logRE`; its capture group only records a submatch, which
`Find` does not return. -/
def logRE : List Re :=
  [.plus .anyNotNL, .cls (.lit '.'), .plus .digit, .eot]

/-- The strings that the `switch` of `parseStatus` decides (collector.go:29-42). -/
def fixedTokens : List String :=
  ["Yes", "ON", "No", "OFF", "Connecting", "Primary", "Non-Primary", "Disconnected"]

/-- The statements of `parseStatus` after the `switch` (collector.go:44-50): the branch on
`logRE.Find(data)` and the parse of the whole string. -/
def afterSwitch (data : String) : Float64 × Bool :=
  match Find logRE data with
  | some logNum => ((ParseFloat logNum).1, (ParseFloat logNum).2 == none)
  | none => ((ParseFloat data).1, (ParseFloat data).2 == none)

/-- The function `parseStatus` (collector.go:27-51). -/
def parseStatus (data : String) : Float64 × Bool :=
  let stat := data
  if stat = "Yes" ∨ stat = "ON" then (.fin 1, true)
  else if stat = "No" ∨ stat = "OFF" then (.fin 0, true)
  else if stat = "Connecting" then (.fin 0, true)
  else if stat = "Primary" then (.fin 1, true)
  else if stat = "Non-Primary" ∨ stat = "Disconnected" then (.fin 0, true)
  else afterSwitch data

/-! ## strings -/

/-- The function `strings.ToLower`: ASCII-only strings are lowered byte by byte, any other
string goes through `Map(unicode.ToLower, s)`. The case table `unicode.ToLower` is the
argument `u`. -/
def ToLower (u : Char → Char) (s : String) : String :=
  if s.data.all (fun c => decide (c.toNat < 128)) then
    if !s.data.any Char.isUpper then s
    else String.mk (s.data.map Char.toLower)
  else String.mk (s.data.map u)

/-- The function `strings.HasPrefix`. -/
def HasPrefix (s pre : String) : Bool :=
  pre.data.isPrefixOf s.data

/-! ## prometheus -/

/-- A `*prometheus.Desc` as far as the exporter uses it: fully qualified name, help and the
names of the variable labels. Every descriptor the exporter builds has a valid name, so
the `err` field of the Go type is always nil and is left out. -/
structure Desc where
  fqName : String
  help : String
  variableLabels : List String
  deriving DecidableEq

/-- The type `prometheus.ValueType`. -/
inductive ValueType where
  | CounterValue
  | GaugeValue
  | UntypedValue
  deriving DecidableEq

/-- A sample as it is sent on the channel: descriptor, kind, value, label values. -/
structure Metric where
  desc : Desc
  valueType : ValueType
  value : Float64
  labelValues : List String
  deriving DecidableEq

/-- The function `prometheus.BuildFQName`. -/
def BuildFQName (ns subsystem name : String) : String :=
  if name = "" then ""
  else if ns ≠ "" ∧ subsystem ≠ "" then ns ++ "_" ++ subsystem ++ "_" ++ name
  else if ns ≠ "" then ns ++ "_" ++ name
  else if subsystem ≠ "" then subsystem ++ "_" ++ name
  else name

/-- The function `prometheus.NewDesc`, without constant labels (the exporter passes nil). -/
def NewDesc (fqName help : String) (variableLabels : List String) : Desc :=
  ⟨fqName, help, variableLabels⟩

/-- The function `prometheus.MustNewConstMetric`, `none` standing for a panic: a nil
descriptor is dereferenced, and a number of label values other than the number of
variable labels is an error that `Must` turns into a panic. -/
def MustNewConstMetric (desc : Option Desc) (valueType : ValueType) (value : Float64)
    (labelValues : List String) : Option Metric :=
  match desc with
  | none => none
  | some d =>
    if d.variableLabels.length ≠ labelValues.length then none
    else some ⟨d, valueType, value, labelValues⟩

/-! ## database/sql -/

/-- What `Scan(&key, &val)` gives for one row of the cursor: the two columns or an error. -/
abbrev RowScan := Except String (String × String)

/-- A `*sql.DB`: what the server answers to a query text, an error or the rows that `Next`
steps through. -/
structure DB where
  Query : String → Except String (List RowScan)

/-- How a call ends: it returns (with a nil or non-nil error) or it panics. -/
inductive Exit where
  | returned (err : Option String)
  | panicked
  deriving DecidableEq

/-- A run of a function that writes to the metric channel: the samples sent, in order, and
how the call ended. -/
structure Run where
  sent : List Metric
  exit : Exit
  deriving DecidableEq

/-! ## collector/global_status.go -/

/-- The constant `namespace` of collector.go. -/
def namespaceName : String := "sphinx"

/-- The constant `globalStatusQuery`. -/
def globalStatusQuery : String := "SHOW STATUS"

/-- The constant `globalStatus`. -/
def globalStatus : String := "status"

/-- The variable `commandDesc`. -/
def commandDesc : Desc :=
  NewDesc (BuildFQName namespaceName globalStatus "command") "Commands" ["command"]

/-- An entry of `descs` with a descriptor of its own. -/
def ownDesc (name help : String) : String × Desc :=
  (name, NewDesc (BuildFQName namespaceName globalStatus name) help [])

/-- The map `descs` (global_status.go:22-92). -/
def descs : List (String × Desc) :=
  [ ownDesc "uptime" "Uptime of Sphinx Server.",
    ownDesc "connections" "Connections to Sphinx Server.",
    ownDesc "maxed_out" "Rejected Queries.",
    ("command_search", commandDesc),
    ("command_excerpt", commandDesc),
    ("command_update", commandDesc),
    ("command_delete", commandDesc),
    ("command_keywords", commandDesc),
    ("command_persist", commandDesc),
    ("command_status", commandDesc),
    ("command_flushattrs", commandDesc),
    ownDesc "agent_connect" "Agent Connect.",
    ownDesc "agent_retry" "Agent Retry.",
    ownDesc "queries" "Queries.",
    ownDesc "dist_queries" "Distributed Queries.",
    ownDesc "query_wall" "Wall Time spent on queries.",
    ownDesc "query_cpu" "CPU Time spent on queries.",
    ownDesc "dist_wall" "Wall Time Spent on distributed Queries.",
    ownDesc "dist_local" "Time spent on dist local queries.",
    ownDesc "dist_wait" "Total waiting time on agents.",
    ownDesc "query_reads" "Query reads.",
    ownDesc "query_readkb" "Query read KB.",
    ownDesc "query_readtime" "Query read time." ]

/-- What one pass through the body of the row loop of `ScrapeStatus` does after a
successful `Scan`: go on to the next row, having sent a sample or not, or panic. -/
inductive Step where
  | next (m : Option Metric)
  | panic
  deriving DecidableEq

/-- The body of the row loop of `ScrapeStatus` (global_status.go:109-125). -/
def rowStep (u : Char → Char) (key val : String) : Step :=
  let r := parseStatus val
  if r.2 then
    let key := ToLower u key
    if HasPrefix key "command_" then
      let label := String.mk (key.data.drop 8)
      match MustNewConstMetric (descs.lookup key) .CounterValue r.1 [label] with
      | some m => .next (some m)
      | none => .panic
    else
      match descs.lookup key with
      | some desc =>
        match MustNewConstMetric (some desc) .CounterValue r.1 [] with
        | some m => .next (some m)
        | none => .panic
      | none => .next none
  else .next none

/-- The row loop of `ScrapeStatus`: a failed `Scan` returns its error, a panic ends the
call, and the loop ends with `return nil` when `Next` reports no more rows. -/
def scanLoop (u : Char → Char) : List RowScan → Run
  | [] => ⟨[], .returned none⟩
  | .error err :: _ => ⟨[], .returned (some err)⟩
  | .ok (key, val) :: rest =>
    match rowStep u key val with
    | .panic => ⟨[], .panicked⟩
    | .next none => scanLoop u rest
    | .next (some m) => ⟨m :: (scanLoop u rest).sent, (scanLoop u rest).exit⟩

/-- The function `ScrapeStatus` (global_status.go:95-129). -/
def ScrapeStatus (u : Char → Char) (db : DB) : Run :=
  match db.Query globalStatusQuery with
  | .error err => ⟨[], .returned (some err)⟩
  | .ok globalStatusRows => scanLoop u globalStatusRows

/-! ## exporter/sphinx_exporter.go -/

/-- The type `Config`. -/
structure Config where
  ListenAddress : String
  MetricPath : String
  ConfigMycnf : String
  Namespace : String
  Subsystem : String
  DSN : String

/-- The constant `upQuery`. -/
def upQuery : String := "SELECT 1"

/-- A `prometheus.Gauge`: its descriptor and current value. -/
structure Gauge where
  desc : Desc
  value : Float64
  deriving DecidableEq

/-- A `prometheus.Counter`: its descriptor and the number of `Inc` calls so far. -/
structure Counter where
  desc : Desc
  value : Nat
  deriving DecidableEq

/-- A `*prometheus.CounterVec` with one variable label: its descriptor and the children
created so far, each with its label value and count. -/
structure CounterVec where
  desc : Desc
  children : List (String × Nat)
  deriving DecidableEq

/-- The method `Gauge.Set`. -/
def Gauge.Set (g : Gauge) (v : Float64) : Gauge :=
  { g with value := v }

/-- The method `Counter.Inc`. -/
def Counter.Inc (c : Counter) : Counter :=
  { c with value := c.value + 1 }

/-- The call `v.WithLabelValues(lv).Inc()`: the child is created at 0 when it is new. -/
def CounterVec.IncWithLabelValues (v : CounterVec) (lv : String) : CounterVec :=
  if v.children.any (fun p => p.1 == lv) then
    { v with children := v.children.map (fun p => if p.1 = lv then (p.1, p.2 + 1) else p) }
  else { v with children := v.children ++ [(lv, 1)] }

/-- The count of the child with label value `lv`, 0 when there is none. -/
def CounterVec.count (v : CounterVec) (lv : String) : Nat :=
  (v.children.lookup lv).getD 0

/-- The sample a gauge stands for when it is sent on the channel. -/
def Gauge.metric (g : Gauge) : Metric :=
  ⟨g.desc, .GaugeValue, g.value, []⟩

/-- The sample a counter stands for when it is sent on the channel. -/
def Counter.metric (c : Counter) : Metric :=
  ⟨c.desc, .CounterValue, .fin c.value, []⟩

/-- The method `CounterVec.Collect`: one sample per child. -/
def CounterVec.Collect (v : CounterVec) : List Metric :=
  v.children.map (fun p => ⟨v.desc, .CounterValue, .fin p.2, [p.1]⟩)

/-- The type `Exporter`. -/
structure Exporter where
  config : Config
  dsn : String
  duration : Gauge
  error : Gauge
  totalScrapes : Counter
  scrapeErrors : CounterVec
  sphinxUp : Gauge

/-- The function `NewExporter` for a configuration that gives a DSN (the branch that reads
the credential file when the DSN is empty is outside the model). -/
def NewExporter (c : Config) : Exporter where
  config := c
  dsn := c.DSN
  duration := ⟨NewDesc (BuildFQName c.Namespace c.Subsystem "last_scrape_duration_seconds")
    "Duration of the last scrape of metrics from Sphinx." [], .fin 0⟩
  totalScrapes := ⟨NewDesc (BuildFQName c.Namespace c.Subsystem "scrapes_total")
    "Total number of times Sphinx was scraped for metrics." [], 0⟩
  scrapeErrors := ⟨NewDesc (BuildFQName c.Namespace c.Subsystem "scrape_errors_total")
    "Total number of times an error occurred scraping a Sphinx." ["collector"], []⟩
  error := ⟨NewDesc (BuildFQName c.Namespace c.Subsystem "last_scrape_error")
    "Whether the last scrape of metrics from Sphinx resulted in an error (1 for error, 0 for success)."
    [], .fin 0⟩
  sphinxUp := ⟨NewDesc (BuildFQName c.Namespace "" "up") "Whether the Sphinx server is up." [],
    .fin 0⟩

/-- What a scrape cycle meets outside the exporter: the result of `sql.Open(driver, dsn)`
and the seconds that `time.Since(begun)` reports when the deferred function runs. -/
structure World where
  sqlOpen : String → String → Except String DB
  elapsed : Float64

/-- The deferred function of `scrape` (sphinx_exporter.go:157-164), `err` being the value
of the variable `err` when it runs. -/
def scrapeDeferred (e : Exporter) (elapsed : Float64) (err : Option String) : Exporter :=
  let e1 := { e with duration := e.duration.Set elapsed }
  if err = none then { e1 with error := e1.error.Set (.fin 0) }
  else { e1 with error := e1.error.Set (.fin 1) }

/-- The method `Exporter.scrape` (sphinx_exporter.go:154-187): the exporter afterwards,
the samples sent and whether the call returned or panicked. The three assignments to
`err` (lines 166, 173, 183) write the one variable that the deferred function reads. -/
def scrape (u : Char → Char) (e : Exporter) (w : World) : Exporter × Run :=
  let e0 := { e with totalScrapes := e.totalScrapes.Inc }
  match w.sqlOpen "mysql" e0.dsn with
  | .error err => (scrapeDeferred e0 w.elapsed (some err), ⟨[], .returned none⟩)
  | .ok db =>
    match db.Query upQuery with
    | .error err =>
      (scrapeDeferred { e0 with sphinxUp := e0.sphinxUp.Set (.fin 0) } w.elapsed (some err),
        ⟨[], .returned none⟩)
    | .ok _ =>
      let e1 := { e0 with sphinxUp := e0.sphinxUp.Set (.fin 1) }
      let r := ScrapeStatus u db
      match r.exit with
      | .returned none => (scrapeDeferred e1 w.elapsed none, ⟨r.sent, .returned none⟩)
      | .returned (some err) =>
        (scrapeDeferred
            { e1 with scrapeErrors := e1.scrapeErrors.IncWithLabelValues "collect.global_status" }
            w.elapsed (some err),
          ⟨r.sent, .returned none⟩)
      | .panicked => (scrapeDeferred e1 w.elapsed none, ⟨r.sent, .panicked⟩)

/-- The four meta-metrics and the error counters that `Collect` sends after `scrape`. -/
def metaMetrics (e : Exporter) : List Metric :=
  [e.duration.metric, e.totalScrapes.metric, e.error.metric] ++ e.scrapeErrors.Collect
    ++ [e.sphinxUp.metric]

/-- The method `Exporter.Collect` (sphinx_exporter.go:144-152); a panic in `scrape` leaves
before anything else is sent. -/
def Collect (u : Char → Char) (e : Exporter) (w : World) : Exporter × Run :=
  let r := scrape u e w
  match r.2.exit with
  | .panicked => r
  | .returned _ => (r.1, ⟨r.2.sent ++ metaMetrics r.1, .returned none⟩)

/-! ## Names for what the claims speak of -/

/-- The keys of `descs` that share `commandDesc` (global_status.go:38-45). -/
def commandKeys : List String :=
  ["command_search", "command_excerpt", "command_update", "command_delete",
   "command_keywords", "command_persist", "command_status", "command_flushattrs"]

/-- Whether every key that the rows decode to is ASCII only. -/
def asciiKeys (rows : List RowScan) : Bool :=
  rows.all (fun r =>
    match r with
    | .ok (key, _) => key.data.all (fun c => decide (c.toNat < 128))
    | .error _ => true)

/-- A row that is a miss: `parseStatus` rejects its value, or its lowercased key lacks the
`command_` start and is not in `descs`. -/
def isMiss (u : Char → Char) (key val : String) : Prop :=
  (parseStatus val).2 = false ∨
    (HasPrefix (ToLower u key) "command_" = false ∧ descs.lookup (ToLower u key) = none)

/-- The sample of the descriptor that `descs` holds for `uptime`. -/
def uptimeSample (v : Float64) : Metric :=
  ⟨NewDesc "sphinx_status_uptime" "Uptime of Sphinx Server." [], .CounterValue, v, []⟩

/-- The error of `sql.Open` in a cycle, if any (sphinx_exporter.go:166). -/
def openError (e : Exporter) (w : World) : Option String :=
  match w.sqlOpen "mysql" e.dsn with
  | .error err => some err
  | .ok _ => none

/-- The error of the liveness probe in a cycle, if the connection opened and the probe
failed (sphinx_exporter.go:173). -/
def probeError (e : Exporter) (w : World) : Option String :=
  match w.sqlOpen "mysql" e.dsn with
  | .error _ => none
  | .ok db =>
    match db.Query upQuery with
    | .error err => some err
    | .ok _ => none

/-- The run of `ScrapeStatus` in a cycle, if the connection opened and the probe
succeeded (sphinx_exporter.go:183). -/
def statusRun (u : Char → Char) (e : Exporter) (w : World) : Option Run :=
  match w.sqlOpen "mysql" e.dsn with
  | .error _ => none
  | .ok db =>
    match db.Query upQuery with
    | .error _ => none
    | .ok _ => some (ScrapeStatus u db)

/-- A server that answers the probe and gives `rows` to the status query. -/
def dbWithStatus (rows : List RowScan) : DB :=
  ⟨fun q => if q = globalStatusQuery then .ok rows else .ok []⟩

/-- A server that answers the probe and fails the status query. -/
def dbStatusFails : DB :=
  ⟨fun q => if q = globalStatusQuery then .error "status query failed" else .ok []⟩

/-- A cycle in which `sql.Open` gives the connection `db`. -/
def worldOf (db : DB) : World :=
  ⟨fun _ _ => .ok db, .fin 0⟩

/-- A cycle of a process whose DSN `sql.Open` rejects. -/
def worldOpenFails : World :=
  ⟨fun _ _ => .error "open failed", .fin 0⟩

/-- Whether `sql.Open("mysql", dsn)` fails in a cycle. -/
def openFails (dsn : String) (w : World) : Bool :=
  match w.sqlOpen "mysql" dsn with
  | .error _ => true
  | .ok _ => false

/-- The exporter after the cycles `ws`, one `Collect` each. -/
def afterCycles (u : Char → Char) (e : Exporter) : List World → Exporter
  | [] => e
  | w :: ws => afterCycles u (Collect u e w).1 ws

/-- The samples that the loop body of `ScrapeStatus` sends for rows that decode, in row
order. -/
def samplesOf (u : Char → Char) (rows : List (String × String)) : List Metric :=
  rows.filterMap (fun r =>
    match rowStep u r.1 r.2 with
    | .next m => m
    | .panic => none)

/-- The configuration that `cmd/sphinx_exporter` builds, with a DSN. -/
def exampleConfig : Config :=
  ⟨":9104", "/metrics", "", "sphinx", "exporter", "user:secret@tcp(localhost:9306)/"⟩

/-- Whether a cycle meets an error: in `sql.Open`, in the probe, or returned by
`ScrapeStatus`. -/
def cycleError (u : Char → Char) (e : Exporter) (w : World) : Prop :=
  openError e w ≠ none ∨ probeError e w ≠ none ∨
    ∃ r err, statusRun u e w = some r ∧ r.exit = .returned (some err)

/-! ## Theorems: the pattern matcher -/

/-- A continuation that can only match the whole remaining text. -/
theorem plusLoop_whole (k : Cls) (cont : List Char → Option (List Char))
    (hcont : ∀ t m, cont t = some m → m = t) :
    ∀ s m, plusLoop k cont s = some m → m = s := by
  intro s
  induction s with
  | nil => intro m h; simp [plusLoop] at h
  | cons c s ih =>
    intro m h
    unfold plusLoop at h
    split at h
    · cases hp : plusLoop k cont s with
      | some m1 =>
        rw [hp] at h
        simp only [Option.some.injEq] at h
        rw [← h, ih m1 hp]
      | none =>
        rw [hp] at h
        cases hc : cont s with
        | none => rw [hc] at h; simp at h
        | some m1 =>
          rw [hc] at h
          simp only [Option.map_some', Option.some.injEq] at h
          rw [← h, hcont s m1 hc]
    · simp at h

/-- Unfolding of `matchHere` at `$`. -/
theorem matchHere_eot (rs : List Re) (s : List Char) :
    matchHere (Re.eot :: rs) s = if s.isEmpty then matchHere rs s else none := rfl

/-- Unfolding of `matchHere` at a class, on a non-empty text. -/
theorem matchHere_cls_cons (k : Cls) (rs : List Re) (c : Char) (s : List Char) :
    matchHere (Re.cls k :: rs) (c :: s)
      = if k.test c then (matchHere rs s).map (fun m => c :: m) else none := rfl

/-- Unfolding of `matchHere` at a class, on the empty text. -/
theorem matchHere_cls_nil (k : Cls) (rs : List Re) :
    matchHere (Re.cls k :: rs) [] = none := rfl

/-- Unfolding of `matchHere` at a `+`. -/
theorem matchHere_plus (k : Cls) (rs : List Re) (s : List Char) :
    matchHere (Re.plus k :: rs) s = plusLoop k (matchHere rs) s := rfl

/-- Unfolding of `plusLoop` on a non-empty text. -/
theorem plusLoop_cons (k : Cls) (cont : List Char → Option (List Char)) (c : Char)
    (s : List Char) :
    plusLoop k cont (c :: s)
      = if k.test c then
          match plusLoop k cont s with
          | some m => some (c :: m)
          | none => (cont s).map (fun m => c :: m)
        else none := rfl

/-- A pattern that ends in `$` can only match the whole text from where it starts. -/
theorem matchHere_whole (rs : List Re) :
    ∀ s m, matchHere (rs ++ [Re.eot]) s = some m → m = s := by
  induction rs with
  | nil =>
    intro s m h
    cases s with
    | nil => simpa [matchHere] using h.symm
    | cons c s => simp [matchHere] at h
  | cons r rs ih =>
    intro s m h
    rw [List.cons_append] at h
    cases r with
    | eot =>
      rw [matchHere_eot] at h
      cases s with
      | nil =>
        simp only [List.isEmpty_nil, if_true] at h
        exact ih [] m h
      | cons c s => simp at h
    | cls k =>
      cases s with
      | nil => simp [matchHere_cls_nil] at h
      | cons c s =>
        rw [matchHere_cls_cons] at h
        split at h
        · cases hc : matchHere (rs ++ [Re.eot]) s with
          | none => rw [hc] at h; simp at h
          | some m1 =>
            rw [hc] at h
            simp only [Option.map_some', Option.some.injEq] at h
            rw [← h, ih s m1 hc]
        · simp at h
    | plus k =>
      rw [matchHere_plus] at h
      exact plusLoop_whole k _ ih s m h

/-- A match of `logRE` at some offset is the rest of the text from that offset. -/
theorem matchHere_logRE_whole (s m : List Char) (h : matchHere logRE s = some m) : m = s :=
  matchHere_whole [.plus .anyNotNL, .cls (.lit '.'), .plus .digit] s m h

/-- A match of a pattern that starts with `k+` extends to the left over a rune of `k`. -/
theorem matchHere_plus_cons (k : Cls) (rs : List Re) (c : Char) (s : List Char)
    (hc : k.test c = true) (h : (matchHere (Re.plus k :: rs) s).isSome) :
    (matchHere (Re.plus k :: rs) (c :: s)).isSome := by
  rw [matchHere_plus] at h ⊢
  rw [plusLoop_cons, if_pos hc]
  cases hp : plusLoop k (matchHere rs) s with
  | some m => rfl
  | none => rw [hp] at h; simp at h

/-- A match of `logRE` extends to the left over any rune that is not a newline. -/
theorem matchHere_logRE_cons (c : Char) (s : List Char) (hc : c ≠ '\n')
    (h : (matchHere logRE s).isSome) : (matchHere logRE (c :: s)).isSome :=
  matchHere_plus_cons .anyNotNL _ c s (by simp [Cls.test, hc]) h

/-- On a text without a newline, the leftmost match of `logRE` starts at offset 0. -/
theorem findFrom_logRE_whole :
    ∀ s m, '\n' ∉ s → findFrom logRE s = some m → matchHere logRE s = some s ∧ m = s := by
  intro s
  induction s with
  | nil =>
    intro m _ h
    simp [findFrom, logRE, matchHere, plusLoop] at h
  | cons c s ih =>
    intro m hnl h
    have hc : c ≠ '\n' := fun e => hnl (by simp [e])
    have hs : '\n' ∉ s := fun e => hnl (List.mem_cons_of_mem c e)
    unfold findFrom at h
    cases hm : matchHere logRE (c :: s) with
    | some m1 =>
      rw [hm] at h
      simp only [Option.some.injEq] at h
      have := matchHere_logRE_whole _ _ hm
      subst this
      exact ⟨rfl, h.symm⟩
    | none =>
      rw [hm] at h
      have h1 := (ih m hs h).1
      have h2 := matchHere_logRE_cons c s hc (by simp [h1])
      rw [hm] at h2
      simp at h2

/-- On a string without a newline, `logRE.Find` returns the whole string or nil. -/
theorem Find_logRE_whole (data m : String) (hnl : '\n' ∉ data.data)
    (h : Find logRE data = some m) : m = data := by
  unfold Find at h
  cases hf : findFrom logRE data.data with
  | none => rw [hf] at h; simp at h
  | some l =>
    rw [hf] at h
    simp only [Option.map_some', Option.some.injEq] at h
    rw [← h, (findFrom_logRE_whole _ _ hnl hf).2]

/-- After the `switch`, a string without a newline gets the parse of the whole string. -/
theorem afterSwitch_eq_ParseFloat (data : String) (hnl : '\n' ∉ data.data) :
    afterSwitch data = ((ParseFloat data).1, (ParseFloat data).2 == none) := by
  unfold afterSwitch
  cases hf : Find logRE data with
  | none => rfl
  | some m => rw [Find_logRE_whole data m hnl hf]

/-- A string that is none of the fixed tokens passes the `switch`. -/
theorem parseStatus_of_not_token (data : String) (h : data ∉ fixedTokens) :
    parseStatus data = afterSwitch data := by
  simp only [fixedTokens, List.mem_cons, List.mem_singleton, List.not_mem_nil, or_false,
    not_or] at h
  obtain ⟨h1, h2, h3, h4, h5, h6, h7, h8⟩ := h
  simp [parseStatus, h1, h2, h3, h4, h5, h6, h7, h8]

/-! ## Theorems: strings and the registry -/

/-- ASCII lowering gives no capital, keeps ASCII runes ASCII, and is idempotent. -/
theorem toLower_props (c : Char) :
    c.toLower.isUpper = false ∧ (c.toNat < 128 → c.toLower.toNat < 128) ∧
      c.toLower.toLower = c.toLower := by
  by_cases h : 65 ≤ c.toNat ∧ c.toNat ≤ 90
  · have hc : c = Char.ofNat c.toNat := (Char.ofNat_toNat c).symm
    obtain ⟨h1, h2⟩ := h
    generalize c.toNat = n at hc h1 h2
    subst hc
    interval_cases n <;> decide
  · have e : c.toLower = c := by
      unfold Char.toLower
      simp only [ge_iff_le]
      rw [if_neg h]
    rw [e]
    refine ⟨?_, fun h => h, e⟩
    simp only [Char.isUpper, ge_iff_le, Bool.and_eq_false_imp, decide_eq_true_eq,
      decide_eq_false_iff_not]
    intro h1 h2
    exact h ⟨h1, h2⟩

/-- On an ASCII-only string `strings.ToLower` does not consult the case table. -/
theorem ToLower_ascii (u v : Char → Char) (s : String)
    (h : s.data.all (fun c => decide (c.toNat < 128)) = true) :
    ToLower u s = ToLower v s := by
  unfold ToLower
  rw [if_pos h, if_pos h]

/-- The branch of `strings.ToLower` for an ASCII-only string without a capital. -/
theorem ToLower_of_lower (u : Char → Char) (s : String)
    (ha : s.data.all (fun c => decide (c.toNat < 128)) = true)
    (hu : (!s.data.any Char.isUpper) = true) : ToLower u s = s := by
  unfold ToLower
  rw [if_pos ha, if_pos hu]

/-- The branch of `strings.ToLower` for an ASCII-only string with a capital. -/
theorem ToLower_of_upper (u : Char → Char) (s : String)
    (ha : s.data.all (fun c => decide (c.toNat < 128)) = true)
    (hu : ¬ (!s.data.any Char.isUpper) = true) :
    ToLower u s = String.mk (s.data.map Char.toLower) := by
  unfold ToLower
  rw [if_pos ha, if_neg hu]

/-- The branch of `strings.ToLower` for a string with a rune outside ASCII. -/
theorem ToLower_of_nonascii (u : Char → Char) (s : String)
    (ha : ¬ s.data.all (fun c => decide (c.toNat < 128)) = true) :
    ToLower u s = String.mk (s.data.map u) := by
  unfold ToLower
  rw [if_neg ha]

/-- The function `strings.ToLower` is idempotent when the case table is idempotent and
never yields an ASCII capital. -/
theorem ToLower_idem (u : Char → Char) (h1 : ∀ c, u (u c) = u c)
    (h2 : ∀ c, (u c).isUpper = false) (s : String) :
    ToLower u (ToLower u s) = ToLower u s := by
  by_cases ha : s.data.all (fun c => decide (c.toNat < 128)) = true
  · by_cases hu : (!s.data.any Char.isUpper) = true
    · rw [ToLower_of_lower u s ha hu, ToLower_of_lower u s ha hu]
    · rw [ToLower_of_upper u s ha hu]
      apply ToLower_of_lower
      · simp only [List.all_eq_true, List.mem_map, decide_eq_true_eq, forall_exists_index,
          and_imp, forall_apply_eq_imp_iff₂] at ha ⊢
        intro c hc
        exact (toLower_props c).2.1 (ha c hc)
      · simp only [Bool.not_eq_true', List.any_eq_false, List.mem_map, forall_exists_index,
          and_imp, forall_apply_eq_imp_iff₂]
        intro c _
        simp [(toLower_props c).1]
  · rw [ToLower_of_nonascii u s ha]
    by_cases hb : (s.data.map u).all (fun c => decide (c.toNat < 128)) = true
    · apply ToLower_of_lower _ _ hb
      simp only [Bool.not_eq_true', List.any_eq_false, List.mem_map, forall_exists_index,
        and_imp, forall_apply_eq_imp_iff₂]
      intro c _
      simp [h2 c]
    · rw [ToLower_of_nonascii u _ hb]
      congr 1
      simp only [List.map_map]
      exact List.map_congr_left (fun c _ => h1 c)

/-- A successful lookup returns an entry of the list. -/
theorem lookup_mem (k : String) (d : Desc) :
    ∀ l : List (String × Desc), l.lookup k = some d → (k, d) ∈ l := by
  intro l
  induction l with
  | nil => intro h; simp at h
  | cons p l ih =>
    intro h
    obtain ⟨k1, d1⟩ := p
    rw [List.lookup_cons] at h
    by_cases hk : k = k1
    · subst hk
      simp only [beq_self_eq_true] at h
      simp only [Option.some.injEq] at h
      subst h
      exact List.mem_cons_self _ _
    · have : (k == k1) = false := by simpa using hk
      rw [this] at h
      exact List.mem_cons_of_mem _ (ih h)

/-- The registry, entry by entry: a command key has the `command_` start and the shared
descriptor; any other key lacks that start and has a descriptor of its own, named after
the key, without variable labels. -/
theorem descs_entries :
    ∀ p ∈ descs,
      (p.1 ∈ commandKeys → HasPrefix p.1 "command_" = true ∧ p.2 = commandDesc) ∧
      (p.1 ∉ commandKeys → HasPrefix p.1 "command_" = false ∧
        p.2.fqName = "sphinx_status_" ++ p.1 ∧ p.2.variableLabels = [] ∧
        p.2 ≠ commandDesc) := by
  decide

/-- Every command key is registered, on the shared descriptor. -/
theorem commandKeys_registered :
    ∀ k ∈ commandKeys, HasPrefix k "command_" = true ∧ descs.lookup k = some commandDesc := by
  decide

/-- A constant metric on a descriptor with as many variable labels as label values. -/
theorem MustNewConstMetric_some (d : Desc) (t : ValueType) (v : Float64) (ls : List String)
    (h : d.variableLabels.length = ls.length) :
    MustNewConstMetric (some d) t v ls = some ⟨d, t, v, ls⟩ := by
  simp [MustNewConstMetric, h]

/-- The loop body on a row whose value `parseStatus` rejects. -/
theorem rowStep_rejected (u : Char → Char) (key val : String)
    (h : (parseStatus val).2 = false) : rowStep u key val = .next none := by
  simp [rowStep, h]

/-- The loop body on a row with an accepted value and a registered command key. -/
theorem rowStep_command (u : Char → Char) (key val : String)
    (hk : ToLower u key ∈ commandKeys) (hv : (parseStatus val).2 = true) :
    rowStep u key val = .next (some ⟨commandDesc, .CounterValue, (parseStatus val).1,
      [String.mk ((ToLower u key).data.drop 8)]⟩) := by
  obtain ⟨hp, hl⟩ := commandKeys_registered _ hk
  unfold rowStep
  simp only [hv, if_true, hp, hl]
  rw [MustNewConstMetric_some commandDesc _ _ _ (by rfl)]

/-- The loop body on a row with an accepted value and a key without the `command_`
start. -/
theorem rowStep_plain (u : Char → Char) (key val : String)
    (hp : HasPrefix (ToLower u key) "command_" = false) (hv : (parseStatus val).2 = true) :
    rowStep u key val =
      match descs.lookup (ToLower u key) with
      | some desc =>
        match MustNewConstMetric (some desc) .CounterValue (parseStatus val).1 [] with
        | some m => .next (some m)
        | none => .panic
      | none => .next none := by
  unfold rowStep
  simp only [hv, if_true, hp]
  rfl

/-- The loop body on a row with an accepted value and a registered key that is not a
command key. -/
theorem rowStep_own (u : Char → Char) (key val : String) (desc : Desc)
    (hk : ToLower u key ∉ commandKeys) (hl : descs.lookup (ToLower u key) = some desc)
    (hv : (parseStatus val).2 = true) :
    rowStep u key val = .next (some ⟨desc, .CounterValue, (parseStatus val).1, []⟩) ∧
      desc.fqName = "sphinx_status_" ++ ToLower u key ∧ desc.variableLabels = [] ∧
      desc ≠ commandDesc := by
  obtain ⟨hp, hn, hvl, hne⟩ := (descs_entries _ (lookup_mem _ _ _ hl)).2 hk
  refine ⟨?_, hn, hvl, hne⟩
  rw [rowStep_plain u key val hp hv, hl]
  simp only
  rw [MustNewConstMetric_some desc _ _ _ (by rw [hvl])]

/-- The loop body on a row with an accepted value and an unregistered key that starts
with `command_`: the nil descriptor reaches `MustNewConstMetric`, which panics. -/
theorem rowStep_unregistered_command (u : Char → Char) (key val : String)
    (hp : HasPrefix (ToLower u key) "command_" = true)
    (hl : descs.lookup (ToLower u key) = none) (hv : (parseStatus val).2 = true) :
    rowStep u key val = .panic := by
  unfold rowStep
  simp only [hv, if_true, hp, hl]
  rfl

/-- The row loop passes over a row on which the body sends nothing. -/
theorem scanLoop_skip (u : Char → Char) (key val : String)
    (h : rowStep u key val = .next none) :
    ∀ before after : List RowScan,
      scanLoop u (before ++ .ok (key, val) :: after) = scanLoop u (before ++ after) := by
  intro before after
  induction before with
  | nil => simp only [List.nil_append, scanLoop, h]
  | cons r before ih =>
    rw [List.cons_append, List.cons_append]
    match r with
    | .error err => simp only [scanLoop]
    | .ok (k1, v1) =>
      simp only [scanLoop]
      rw [ih]

/-- On rows that all decode, the row loop never returns an error. -/
theorem scanLoop_no_error (u : Char → Char) (rows : List (String × String)) (err : String) :
    (scanLoop u (rows.map Except.ok)).exit ≠ .returned (some err) := by
  induction rows with
  | nil => simp [scanLoop]
  | cons r rows ih =>
    obtain ⟨k, v⟩ := r
    simp only [List.map_cons, scanLoop]
    split
    · simp
    · exact ih
    · exact ih

/-- On rows that all decode and on none of which the body panics, the row loop returns nil
after sending the samples of the rows, in row order. -/
theorem scanLoop_in_order (u : Char → Char) (rows : List (String × String))
    (h : ∀ r ∈ rows, rowStep u r.1 r.2 ≠ .panic) :
    scanLoop u (rows.map Except.ok) =
      ⟨rows.filterMap (fun r =>
          match rowStep u r.1 r.2 with
          | .next m => m
          | .panic => none), .returned none⟩ := by
  induction rows with
  | nil => simp [scanLoop]
  | cons r rows ih =>
    obtain ⟨k, v⟩ := r
    have ih1 := ih (fun r hr => h r (List.mem_cons_of_mem _ hr))
    have h0 := h (k, v) (List.mem_cons_self _ _)
    simp only [List.map_cons, scanLoop]
    cases hs : rowStep u k v with
    | panic => exact absurd hs h0
    | next m =>
      cases m with
      | none => simp only [ih1, List.filterMap_cons, hs]
      | some m => simp only [ih1, List.filterMap_cons, hs]

/-- With a successful status query, `ScrapeStatus` is the row loop over its rows. -/
theorem ScrapeStatus_ok (u : Char → Char) (db : DB) (rows : List RowScan)
    (h : db.Query globalStatusQuery = .ok rows) : ScrapeStatus u db = scanLoop u rows := by
  simp [ScrapeStatus, h]

/-- On an ASCII-only key the loop body does not consult the case table. -/
theorem rowStep_ascii (u v : Char → Char) (key val : String)
    (h : key.data.all (fun c => decide (c.toNat < 128)) = true) :
    rowStep u key val = rowStep v key val := by
  unfold rowStep
  rw [ToLower_ascii u v key h]

/-- On rows with ASCII-only keys the row loop does not consult the case table. -/
theorem scanLoop_ascii (u v : Char → Char) :
    ∀ rows : List RowScan, asciiKeys rows = true → scanLoop u rows = scanLoop v rows := by
  intro rows
  induction rows with
  | nil => intro _; rfl
  | cons r rows ih =>
    intro h
    simp only [asciiKeys, List.all_cons, Bool.and_eq_true] at h
    have ih1 := ih (by simpa [asciiKeys] using h.2)
    match r, h.1 with
    | .error err, _ => rfl
    | .ok (k, x), hk =>
      simp only [scanLoop]
      rw [rowStep_ascii u v k x hk, ih1]

/-- The status query of `dbWithStatus rows` gives `rows`. -/
theorem dbWithStatus_query (rows : List RowScan) :
    (dbWithStatus rows).Query globalStatusQuery = .ok rows := by
  simp [dbWithStatus]

/-- On `dbWithStatus rows`, `ScrapeStatus` is the row loop over `rows`. -/
theorem ScrapeStatus_dbWithStatus (u : Char → Char) (rows : List RowScan) :
    ScrapeStatus u (dbWithStatus rows) = scanLoop u rows :=
  ScrapeStatus_ok u _ rows (dbWithStatus_query rows)

/-- Two rows on which the loop body does the same are interchangeable in the row loop. -/
theorem scanLoop_congr (u : Char → Char) (k1 v1 k2 v2 : String)
    (h : rowStep u k1 v1 = rowStep u k2 v2) :
    ∀ before after : List RowScan,
      scanLoop u (before ++ .ok (k1, v1) :: after)
        = scanLoop u (before ++ .ok (k2, v2) :: after) := by
  intro before after
  induction before with
  | nil => simp only [List.nil_append, scanLoop, h]
  | cons r before ih =>
    rw [List.cons_append, List.cons_append]
    match r with
    | .error err => simp only [scanLoop]
    | .ok (k, x) =>
      simp only [scanLoop]
      rw [ih]

/-- The loop body sends nothing for a miss. -/
theorem rowStep_miss (u : Char → Char) (key val : String) (h : isMiss u key val) :
    rowStep u key val = .next none := by
  cases hv : (parseStatus val).2 with
  | false => exact rowStep_rejected u key val hv
  | true =>
    rcases h with h | ⟨hp, hl⟩
    · rw [hv] at h; simp at h
    · rw [rowStep_plain u key val hp hv, hl]

/-! ## Theorems: the exporter -/

/-- After `WithLabelValues(lv).Inc()` the child `lv` counts one more. -/
theorem count_IncWithLabelValues (v : CounterVec) (lv : String) :
    (v.IncWithLabelValues lv).count lv = v.count lv + 1 := by
  obtain ⟨d, children⟩ := v
  unfold CounterVec.IncWithLabelValues CounterVec.count
  simp only
  induction children with
  | nil => simp [List.lookup]
  | cons p children ih =>
    obtain ⟨k, n⟩ := p
    by_cases hk : k = lv
    · subst hk
      simp [List.lookup]
    · have hb : (lv == k) = false := by
        simp only [beq_eq_false_iff_ne, ne_eq]
        exact fun h => hk h.symm
      have hb1 : (k == lv) = false := by simpa using hk
      simp only [List.any_cons, hb1, Bool.false_or, List.map_cons, hk, if_false,
        List.cons_append] at ih ⊢
      split
      · rename_i hany
        rw [if_pos hany] at ih
        simp only [List.lookup, hb]
        exact ih
      · rename_i hany
        rw [if_neg hany] at ih
        simp only [List.lookup, hb]
        exact ih

/-- A cycle in which `sql.Open` fails: the deferred function sets the error gauge, the up
gauge is not touched, no status sample is sent, and the meta-metrics follow. -/
theorem Collect_open_error (u : Char → Char) (e : Exporter) (w : World) (err : String)
    (h : w.sqlOpen "mysql" e.dsn = .error err) :
    (Collect u e w).1.sphinxUp = e.sphinxUp ∧
    (Collect u e w).1.error.value = .fin 1 ∧
    (Collect u e w).1.totalScrapes.value = e.totalScrapes.value + 1 ∧
    (Collect u e w).2 = ⟨metaMetrics (Collect u e w).1, .returned none⟩ := by
  simp [Collect, scrape, h, scrapeDeferred, Gauge.Set, Counter.Inc]

/-- A cycle in which the probe fails: the up gauge is set to 0, the error gauge to 1. -/
theorem Collect_probe_error (u : Char → Char) (e : Exporter) (w : World) (db : DB)
    (err : String) (h : w.sqlOpen "mysql" e.dsn = .ok db) (hp : db.Query upQuery = .error err) :
    (Collect u e w).1.sphinxUp.value = .fin 0 ∧
    (Collect u e w).1.error.value = .fin 1 ∧
    (Collect u e w).1.totalScrapes.value = e.totalScrapes.value + 1 ∧
    (Collect u e w).2 = ⟨metaMetrics (Collect u e w).1, .returned none⟩ := by
  simp [Collect, scrape, h, hp, scrapeDeferred, Gauge.Set, Counter.Inc]

/-- A cycle in which `ScrapeStatus` returns nil. -/
theorem Collect_status_ok (u : Char → Char) (e : Exporter) (w : World) (db : DB)
    (rows : List RowScan) (h : w.sqlOpen "mysql" e.dsn = .ok db)
    (hp : db.Query upQuery = .ok rows) (hs : (ScrapeStatus u db).exit = .returned none) :
    (Collect u e w).1.sphinxUp.value = .fin 1 ∧
    (Collect u e w).1.error.value = .fin 0 ∧
    (Collect u e w).1.scrapeErrors = e.scrapeErrors ∧
    (Collect u e w).1.totalScrapes.value = e.totalScrapes.value + 1 ∧
    (Collect u e w).2
      = ⟨(ScrapeStatus u db).sent ++ metaMetrics (Collect u e w).1, .returned none⟩ := by
  simp [Collect, scrape, h, hp, hs, scrapeDeferred, Gauge.Set, Counter.Inc]

/-- A cycle in which `ScrapeStatus` returns an error: the error counter of
"collect.global_status" is incremented, and the deferred function, which reads the `err`
that line 183 assigned, sets the error gauge to 1. -/
theorem Collect_status_error (u : Char → Char) (e : Exporter) (w : World) (db : DB)
    (rows : List RowScan) (err : String) (h : w.sqlOpen "mysql" e.dsn = .ok db)
    (hp : db.Query upQuery = .ok rows)
    (hs : (ScrapeStatus u db).exit = .returned (some err)) :
    (Collect u e w).1.sphinxUp.value = .fin 1 ∧
    (Collect u e w).1.error.value = .fin 1 ∧
    (Collect u e w).1.scrapeErrors = e.scrapeErrors.IncWithLabelValues "collect.global_status" ∧
    (Collect u e w).1.totalScrapes.value = e.totalScrapes.value + 1 ∧
    (Collect u e w).2
      = ⟨(ScrapeStatus u db).sent ++ metaMetrics (Collect u e w).1, .returned none⟩ := by
  simp [Collect, scrape, h, hp, hs, scrapeDeferred, Gauge.Set, Counter.Inc]

/-- A cycle in which `ScrapeStatus` panics: `Collect` ends in the panic, with the samples
sent before it and none of the meta-metrics. -/
theorem Collect_status_panic (u : Char → Char) (e : Exporter) (w : World) (db : DB)
    (rows : List RowScan) (h : w.sqlOpen "mysql" e.dsn = .ok db)
    (hp : db.Query upQuery = .ok rows) (hs : (ScrapeStatus u db).exit = .panicked) :
    (Collect u e w).2 = ⟨(ScrapeStatus u db).sent, .panicked⟩ ∧
    (Collect u e w).1.error.value = .fin 0 := by
  simp [Collect, scrape, h, hp, hs, scrapeDeferred, Gauge.Set, Counter.Inc]

/-- A cycle that does not end in a panic sends the status samples, then the duration, the
total of scrapes, the error gauge, the error counters and the up gauge, and counts one
scrape more. -/
theorem Collect_meta_metrics (u : Char → Char) (e : Exporter) (w : World)
    (h : (Collect u e w).2.exit ≠ .panicked) :
    (∃ status, (Collect u e w).2.sent = status ++
        ([(Collect u e w).1.duration.metric, (Collect u e w).1.totalScrapes.metric,
          (Collect u e w).1.error.metric] ++ (Collect u e w).1.scrapeErrors.Collect ++
          [(Collect u e w).1.sphinxUp.metric]) ∧
      (statusRun u e w = none → status = []) ∧
      (∀ r, statusRun u e w = some r → status = r.sent)) ∧
    (Collect u e w).1.totalScrapes.value = e.totalScrapes.value + 1 := by
  cases ho : w.sqlOpen "mysql" e.dsn with
  | error err =>
    obtain ⟨_, _, h3, h4⟩ := Collect_open_error u e w err ho
    refine ⟨⟨[], ?_, fun _ => rfl, fun r hr => ?_⟩, h3⟩
    · rw [h4]; rfl
    · simp [statusRun, ho] at hr
  | ok db =>
    cases hp : db.Query upQuery with
    | error err =>
      obtain ⟨_, _, h3, h4⟩ := Collect_probe_error u e w db err ho hp
      refine ⟨⟨[], ?_, fun _ => rfl, fun r hr => ?_⟩, h3⟩
      · rw [h4]; rfl
      · simp [statusRun, ho, hp] at hr
    | ok rows =>
      cases hs : (ScrapeStatus u db).exit with
      | panicked =>
        rw [(Collect_status_panic u e w db rows ho hp hs).1] at h
        exact absurd rfl h
      | returned r =>
        cases r with
        | none =>
          obtain ⟨_, _, _, h3, h4⟩ := Collect_status_ok u e w db rows ho hp hs
          refine ⟨⟨(ScrapeStatus u db).sent, ?_, fun hn => ?_, fun r hr => ?_⟩, h3⟩
          · rw [h4]; rfl
          · simp [statusRun, ho, hp] at hn
          · simp only [statusRun, ho, hp, Option.some.injEq] at hr
            rw [← hr]
        | some err =>
          obtain ⟨_, _, _, h3, h4⟩ := Collect_status_error u e w db rows err ho hp hs
          refine ⟨⟨(ScrapeStatus u db).sent, ?_, fun hn => ?_, fun r hr => ?_⟩, h3⟩
          · rw [h4]; rfl
          · simp [statusRun, ho, hp] at hn
          · simp only [statusRun, ho, hp, Option.some.injEq] at hr
            rw [← hr]

/-- Unfolding of the row loop at a row that decodes. -/
theorem scanLoop_ok_cons (u : Char → Char) (key val : String) (rest : List RowScan) :
    scanLoop u (.ok (key, val) :: rest)
      = match rowStep u key val with
        | .panic => ⟨[], .panicked⟩
        | .next none => scanLoop u rest
        | .next (some m) => ⟨m :: (scanLoop u rest).sent, (scanLoop u rest).exit⟩ := rfl

/-- The row loop gets past rows that decode and on which the body does not panic: their
samples are sent, in row order, and the loop goes on with the rows that follow. -/
theorem scanLoop_reach (u : Char → Char) (after : List RowScan) :
    ∀ before : List (String × String), (∀ r ∈ before, rowStep u r.1 r.2 ≠ .panic) →
      scanLoop u (before.map Except.ok ++ after)
        = ⟨samplesOf u before ++ (scanLoop u after).sent, (scanLoop u after).exit⟩ := by
  intro before
  induction before with
  | nil => intro _; rfl
  | cons r before ih =>
    intro h
    obtain ⟨k, v⟩ := r
    have ih1 := ih (fun r hr => h r (List.mem_cons_of_mem _ hr))
    have h0 := h (k, v) (List.mem_cons_self _ _)
    rw [List.map_cons, List.cons_append, scanLoop_ok_cons, ih1]
    cases hs : rowStep u k v with
    | panic => exact absurd hs h0
    | next m =>
      cases m with
      | none => simp only [samplesOf, List.filterMap_cons, hs]
      | some m => simp only [samplesOf, List.filterMap_cons, hs, List.cons_append]

/-- A row that the loop reaches and for which the body sends `m`: `ScrapeStatus` sends the
samples of the rows before it, then `m`, then what the rows after it give. -/
theorem ScrapeStatus_reached (u : Char → Char) (db : DB) (before : List (String × String))
    (key val : String) (after : List RowScan) (m : Metric)
    (hq : db.Query globalStatusQuery
      = .ok (before.map Except.ok ++ .ok (key, val) :: after))
    (hreach : ∀ r ∈ before, rowStep u r.1 r.2 ≠ .panic)
    (hm : rowStep u key val = .next (some m)) :
    ScrapeStatus u db
      = ⟨samplesOf u before ++ m :: (scanLoop u after).sent, (scanLoop u after).exit⟩ := by
  rw [ScrapeStatus_ok u db _ hq, scanLoop_reach u _ before hreach]
  simp only [scanLoop, hm]

/-- A cycle leaves the DSN of the exporter as it is. -/
theorem Collect_dsn (u : Char → Char) (e : Exporter) (w : World) :
    (Collect u e w).1.dsn = e.dsn := by
  cases ho : w.sqlOpen "mysql" e.dsn with
  | error err => simp [Collect, scrape, ho, scrapeDeferred]
  | ok db =>
    cases hp : db.Query upQuery with
    | error err => simp [Collect, scrape, ho, hp, scrapeDeferred]
    | ok rows =>
      cases hs : (ScrapeStatus u db).exit with
      | panicked => simp [Collect, scrape, ho, hp, hs, scrapeDeferred]
      | returned r => cases r <;> simp [Collect, scrape, ho, hp, hs, scrapeDeferred]

/-- A failing `sql.Open` returns some error. -/
theorem openFails_error (dsn : String) (w : World) (h : openFails dsn w = true) :
    ∃ err, w.sqlOpen "mysql" dsn = .error err := by
  unfold openFails at h
  cases ho : w.sqlOpen "mysql" dsn with
  | error err => exact ⟨err, rfl⟩
  | ok db => rw [ho] at h; simp at h

/-- Cycles in all of which `sql.Open` fails leave the up gauge and the DSN as they are. -/
theorem afterCycles_open_fails (u : Char → Char) :
    ∀ (ws : List World) (e : Exporter), (∀ w ∈ ws, openFails e.dsn w = true) →
      (afterCycles u e ws).sphinxUp = e.sphinxUp ∧ (afterCycles u e ws).dsn = e.dsn := by
  intro ws
  induction ws with
  | nil => intro e _; exact ⟨rfl, rfl⟩
  | cons w ws ih =>
    intro e h
    obtain ⟨err, ho⟩ := openFails_error e.dsn w (h w (List.mem_cons_self _ _))
    have hd := Collect_dsn u e w
    have hu := (Collect_open_error u e w err ho).1
    have := ih (Collect u e w).1 (fun w1 hw1 => by
      rw [hd]; exact h w1 (List.mem_cons_of_mem _ hw1))
    simp only [afterCycles]
    exact ⟨this.1.trans hu, this.2.trans hd⟩

/-! ## Theorems: the claims -/

/-- C1: `parseStatus` maps the fixed tokens exactly ("Yes", "ON", "Primary" to (1, true);
"No", "OFF", "Connecting", "Non-Primary", "Disconnected" to (0, true)). The tokens are
decided by the `switch`, ahead of the two later rules, both of which reject every one of
them; the match is exact and case-sensitive, any other string (such as "yes", "on",
"YES", "primary" or "Yes ") passing the `switch` to the later rules. -/
theorem parseStatus_fixed_tokens :
    parseStatus "Yes" = (.fin 1, true) ∧ parseStatus "ON" = (.fin 1, true) ∧
    parseStatus "No" = (.fin 0, true) ∧ parseStatus "OFF" = (.fin 0, true) ∧
    parseStatus "Connecting" = (.fin 0, true) ∧ parseStatus "Primary" = (.fin 1, true) ∧
    parseStatus "Non-Primary" = (.fin 0, true) ∧
    parseStatus "Disconnected" = (.fin 0, true) ∧
    (∀ t ∈ fixedTokens, afterSwitch t = (.fin 0, false)) ∧
    (∀ data, data ∉ fixedTokens → parseStatus data = afterSwitch data) ∧
    parseStatus "yes" = (.fin 0, false) ∧ parseStatus "on" = (.fin 0, false) ∧
    parseStatus "YES" = (.fin 0, false) ∧ parseStatus "primary" = (.fin 0, false) ∧
    parseStatus "Yes " = (.fin 0, false) := by
  refine ⟨by decide, by decide, by decide, by decide, by decide, by decide, by decide,
    by decide, by decide, parseStatus_of_not_token, by decide, by decide, by decide,
    by decide, by decide⟩

/-- Witness of C1 at "yes", which is not a fixed token. -/
theorem parseStatus_fixed_tokens_witness :
    "yes" ∉ fixedTokens ∧ parseStatus "yes" = afterSwitch "yes" :=
  ⟨by decide, parseStatus_fixed_tokens.2.2.2.2.2.2.2.2.2.1 "yes" (by decide)⟩

/-- C2 (the code at the failing input): on "binlog.000123" the pattern matches, `Find`
returns the whole match "binlog.000123" and not the digit group, `ParseFloat` rejects it,
and `parseStatus` returns (0, false) where the claim has (123, true). -/
theorem parseStatus_binlog :
    Find logRE "binlog.000123" = some "binlog.000123" ∧
    ParseFloat "binlog.000123" = (.fin 0, some .ErrSyntax) ∧
    parseStatus "binlog.000123" = (.fin 0, false) ∧
    parseStatus "binlog.000123" ≠ (.fin 123, true) := by
  refine ⟨by decide, by decide, by decide, by decide⟩

/-- C3 (the code at the failing input): the key "command_foo" starts with `command_` and
is not in `descs`, the value "1" is accepted, and the `command_` branch hands the nil
result of `descs[key]` to `MustNewConstMetric`: the loop body panics, and `ScrapeStatus`
ends in that panic without a sample, never reaching the row ("uptime", "5") that follows,
which alone would have been sampled. -/
theorem ScrapeStatus_command_foo (u : Char → Char) :
    HasPrefix (ToLower u "command_foo") "command_" = true ∧
    descs.lookup (ToLower u "command_foo") = none ∧
    parseStatus "1" = (.fin 1, true) ∧
    MustNewConstMetric (descs.lookup (ToLower u "command_foo")) .CounterValue (.fin 1) ["foo"]
      = none ∧
    rowStep u "command_foo" "1" = .panic ∧
    ScrapeStatus u (dbWithStatus [.ok ("command_foo", "1"), .ok ("uptime", "5")])
      = ⟨[], .panicked⟩ ∧
    ScrapeStatus u (dbWithStatus [.ok ("uptime", "5")])
      = ⟨[uptimeSample (.fin 5)], .returned none⟩ := by
  have e : ToLower u "command_foo" = "command_foo" :=
    (ToLower_ascii u Char.toLower _ (by decide)).trans (by decide)
  rw [e, rowStep_ascii u Char.toLower _ _ (by decide), ScrapeStatus_dbWithStatus,
    ScrapeStatus_dbWithStatus, scanLoop_ascii u Char.toLower _ (by decide),
    scanLoop_ascii u Char.toLower _ (by decide)]
  refine ⟨by decide, by decide, by decide!, by decide, by decide!, by decide!, by decide!⟩

/-- C4 (counterexample): a cycle in which the connection opens, the probe succeeds and the
status query fails. `ScrapeStatus` returns the error, the error counter of
"collect.global_status" goes from 0 to 1, and the last-scrape-error gauge ends at 1, not
at 0, with no connection-level error in the cycle. -/
theorem last_scrape_error_after_status_error :
    openError (NewExporter exampleConfig) (worldOf dbStatusFails) = none ∧
    probeError (NewExporter exampleConfig) (worldOf dbStatusFails) = none ∧
    statusRun Char.toLower (NewExporter exampleConfig) (worldOf dbStatusFails)
      = some ⟨[], .returned (some "status query failed")⟩ ∧
    (NewExporter exampleConfig).scrapeErrors.count "collect.global_status" = 0 ∧
    (Collect Char.toLower (NewExporter exampleConfig) (worldOf dbStatusFails)).1.scrapeErrors.count
      "collect.global_status" = 1 ∧
    (Collect Char.toLower (NewExporter exampleConfig) (worldOf dbStatusFails)).1.error.value
      = .fin 1 ∧
    (Collect Char.toLower (NewExporter exampleConfig) (worldOf dbStatusFails)).1.error.value
      ≠ .fin 0 := by
  refine ⟨by decide, by decide, by decide, by decide, by decide, by decide!, by decide!⟩

/-- C4 (amended): when `ScrapeStatus` returns an error in a cycle whose connection open and
liveness probe both succeeded, the error counter labelled "collect.global_status" is
incremented by one and the last-scrape-error gauge is set to 1; after every cycle that
does not end in a panic, the last-scrape-error gauge is 1 if and only if the connection
open, the liveness probe or `ScrapeStatus` returned an error, and it is 0 otherwise. -/
theorem last_scrape_error_iff (u : Char → Char) (e : Exporter) (w : World)
    (hret : (Collect u e w).2.exit ≠ .panicked) :
    (∀ r err, statusRun u e w = some r → r.exit = .returned (some err) →
      (Collect u e w).1.scrapeErrors.count "collect.global_status"
        = e.scrapeErrors.count "collect.global_status" + 1 ∧
      (Collect u e w).1.error.value = .fin 1) ∧
    ((Collect u e w).1.error.value = .fin 1 ↔ cycleError u e w) ∧
    ((Collect u e w).1.error.value = .fin 0 ↔ ¬ cycleError u e w) := by
  have h10 : Float64.fin 1 ≠ Float64.fin 0 := by simp
  cases ho : w.sqlOpen "mysql" e.dsn with
  | error err =>
    obtain ⟨_, h2, _, _⟩ := Collect_open_error u e w err ho
    have hc : cycleError u e w := Or.inl (by simp [openError, ho])
    refine ⟨fun r err1 hr _ => ?_, ?_, ?_⟩
    · simp [statusRun, ho] at hr
    · simp [h2, hc]
    · simp [h2, hc]
  | ok db =>
    cases hp : db.Query upQuery with
    | error err =>
      obtain ⟨_, h2, _, _⟩ := Collect_probe_error u e w db err ho hp
      have hc : cycleError u e w := Or.inr (Or.inl (by simp [probeError, ho, hp]))
      refine ⟨fun r err1 hr _ => ?_, ?_, ?_⟩
      · simp [statusRun, ho, hp] at hr
      · simp [h2, hc]
      · simp [h2, hc]
    | ok rows =>
      have hsr : statusRun u e w = some (ScrapeStatus u db) := by simp [statusRun, ho, hp]
      cases hs : (ScrapeStatus u db).exit with
      | panicked =>
        rw [(Collect_status_panic u e w db rows ho hp hs).1] at hret
        exact absurd rfl hret
      | returned r =>
        cases r with
        | none =>
          obtain ⟨_, h2, _, _, _⟩ := Collect_status_ok u e w db rows ho hp hs
          have hc : ¬ cycleError u e w := by
            rintro (h | h | ⟨r, err, hr, he⟩)
            · simp [openError, ho] at h
            · simp [probeError, ho, hp] at h
            · rw [hsr] at hr
              simp only [Option.some.injEq] at hr
              rw [← hr, hs] at he
              simp at he
          refine ⟨fun r err1 hr he => ?_, ?_, ?_⟩
          · rw [hsr] at hr
            simp only [Option.some.injEq] at hr
            rw [← hr, hs] at he
            simp at he
          · simp [h2, hc]
          · simp [h2, hc]
        | some err =>
          obtain ⟨_, h2, h3, _, _⟩ := Collect_status_error u e w db rows err ho hp hs
          have hc : cycleError u e w := Or.inr (Or.inr ⟨_, err, hsr, hs⟩)
          refine ⟨fun _ _ _ _ => ⟨?_, h2⟩, ?_, ?_⟩
          · rw [h3, count_IncWithLabelValues]
          · simp [h2, hc]
          · simp [h2, hc]

/-- Witness of C4 (amended): the cycle whose status query fails, and a cycle against a
live server. -/
theorem last_scrape_error_iff_witness :
    ((Collect Char.toLower (NewExporter exampleConfig) (worldOf dbStatusFails)).1.error.value
        = .fin 1 ↔
      cycleError Char.toLower (NewExporter exampleConfig) (worldOf dbStatusFails)) ∧
    ((Collect Char.toLower (NewExporter exampleConfig)
        (worldOf (dbWithStatus [.ok ("uptime", "12345")]))).1.error.value = .fin 0 ↔
      ¬ cycleError Char.toLower (NewExporter exampleConfig)
        (worldOf (dbWithStatus [.ok ("uptime", "12345")]))) ∧
    (Collect Char.toLower (NewExporter exampleConfig)
        (worldOf (dbWithStatus [.ok ("uptime", "12345")]))).1.error.value = .fin 0 :=
  ⟨(last_scrape_error_iff Char.toLower (NewExporter exampleConfig) (worldOf dbStatusFails)
      (by decide)).2.1,
    (last_scrape_error_iff Char.toLower (NewExporter exampleConfig)
      (worldOf (dbWithStatus [.ok ("uptime", "12345")])) (by decide!)).2.2,
    by decide!⟩

/-- C5: an exporter runs its cycles with the one DSN that `NewExporter` gave it (from the
configuration or from the credential file), and `sql.Open("mysql", dsn)`, which only looks
up the driver and parses the DSN, answers that DSN the same way in every cycle. Then,
whatever cycles came before, a cycle in which the open fails ends with the
last-scrape-error gauge at 1 and the up gauge at 0, sends no status sample and sends the
meta-metrics; and a state in which an earlier cycle set the up gauge to 1 is never
followed by a cycle in which the open fails. -/
theorem open_failure_cycle (u : Char → Char) (c : Config) (dsn : String)
    (earlier : List World) (w : World)
    (hpure : ∀ w1 ∈ earlier, openFails dsn w1 = openFails dsn w) :
    (openFails dsn w = true →
      (Collect u (afterCycles u { NewExporter c with dsn := dsn } earlier) w).1.error.value
        = .fin 1 ∧
      (Collect u (afterCycles u { NewExporter c with dsn := dsn } earlier) w).1.sphinxUp.value
        = .fin 0 ∧
      (Collect u (afterCycles u { NewExporter c with dsn := dsn } earlier) w).2
        = ⟨metaMetrics
            (Collect u (afterCycles u { NewExporter c with dsn := dsn } earlier) w).1,
          .returned none⟩) ∧
    ((afterCycles u { NewExporter c with dsn := dsn } earlier).sphinxUp.value = .fin 1 →
      openFails dsn w = false) := by
  have key : openFails dsn w = true →
      (afterCycles u { NewExporter c with dsn := dsn } earlier).sphinxUp.value = .fin 0 ∧
      (afterCycles u { NewExporter c with dsn := dsn } earlier).dsn = dsn := by
    intro hf
    have h := afterCycles_open_fails u earlier { NewExporter c with dsn := dsn }
      (fun w1 hw1 => by rw [hpure w1 hw1]; exact hf)
    exact ⟨by rw [h.1]; rfl, h.2⟩
  constructor
  · intro hf
    obtain ⟨hup, hd⟩ := key hf
    obtain ⟨err, ho⟩ := openFails_error dsn w hf
    rw [← hd] at ho
    obtain ⟨h1, h2, _, h4⟩ := Collect_open_error u _ w err ho
    exact ⟨h2, by rw [h1, hup], h4⟩
  · intro hone
    cases hf : openFails dsn w with
    | false => rfl
    | true =>
      rw [(key hf).1] at hone
      simp at hone

/-- Witness of C5: a process whose DSN `sql.Open` rejects, in its third cycle. -/
theorem open_failure_cycle_witness :
    (Collect Char.toLower
        (afterCycles Char.toLower { NewExporter exampleConfig with dsn := "no-dsn" }
          [worldOpenFails, worldOpenFails]) worldOpenFails).1.error.value = .fin 1 ∧
    (Collect Char.toLower
        (afterCycles Char.toLower { NewExporter exampleConfig with dsn := "no-dsn" }
          [worldOpenFails, worldOpenFails]) worldOpenFails).1.sphinxUp.value = .fin 0 ∧
    (Collect Char.toLower
        (afterCycles Char.toLower { NewExporter exampleConfig with dsn := "no-dsn" }
          [worldOpenFails, worldOpenFails]) worldOpenFails).2
      = ⟨metaMetrics (Collect Char.toLower
            (afterCycles Char.toLower { NewExporter exampleConfig with dsn := "no-dsn" }
              [worldOpenFails, worldOpenFails]) worldOpenFails).1, .returned none⟩ :=
  (open_failure_cycle Char.toLower exampleConfig "no-dsn" [worldOpenFails, worldOpenFails]
    worldOpenFails (by decide)).1 (by decide)

/-- C6 (the code at the failing input): a cycle in which the connection opens, the probe
succeeds and the status query gives the row ("command_foo", "1"). `ScrapeStatus` panics
(the defect of C3), the panic leaves `scrape` and `Collect`, and `Collect` sends nothing:
none of the duration, total-scrapes, last-scrape-error and up samples; the total of
scrapes was incremented before. -/
theorem Collect_panics_before_meta_metrics :
    openError (NewExporter exampleConfig) (worldOf (dbWithStatus [.ok ("command_foo", "1")]))
      = none ∧
    probeError (NewExporter exampleConfig) (worldOf (dbWithStatus [.ok ("command_foo", "1")]))
      = none ∧
    statusRun Char.toLower (NewExporter exampleConfig)
        (worldOf (dbWithStatus [.ok ("command_foo", "1")])) = some ⟨[], .panicked⟩ ∧
    (Collect Char.toLower (NewExporter exampleConfig)
        (worldOf (dbWithStatus [.ok ("command_foo", "1")]))).2 = ⟨[], .panicked⟩ ∧
    (Collect Char.toLower (NewExporter exampleConfig)
        (worldOf (dbWithStatus [.ok ("command_foo", "1")]))).1.totalScrapes.value = 1 := by
  refine ⟨by decide, by decide, by decide!, by decide!, by decide!⟩

/-- C7 (counterexample): the result set whose first row does not decode and whose second
row is ("uptime", "5"), a registered key with an accepted value. `ScrapeStatus` returns
the error of `Scan` at the first row (global_status.go:110-112); the registered row is
not visited and gets no sample. -/
theorem registered_row_after_scan_error :
    descs.lookup (ToLower Char.toLower "uptime") = some (uptimeSample (.fin 0)).desc ∧
    parseStatus "5" = (.fin 5, true) ∧
    ScrapeStatus Char.toLower (dbWithStatus [.error "bad row", .ok ("uptime", "5")])
      = ⟨[], .returned (some "bad row")⟩ ∧
    ScrapeStatus Char.toLower (dbWithStatus [.ok ("uptime", "5")])
      = ⟨[uptimeSample (.fin 5)], .returned none⟩ := by
  refine ⟨by decide, by decide!, by decide, by decide!⟩

/-- C7 (amended): for every row that the row loop reaches (the status query succeeded,
every earlier row decoded and none of them ended the call in a panic), whatever rows
follow it: if its lowercased key is one of the registered `command_*` keys and its value
is accepted as v, `ScrapeStatus` sends for it exactly one sample, on the shared command
descriptor, of counter kind, with value v and the single label value that is the key
without its 8-character start `command_`; if its lowercased key is any other registered
key, exactly one counter sample with value v and no label values on the descriptor of
that key (named `sphinx_status_<key>`, without variable labels, not the command
descriptor). The sample stands after the samples of the earlier rows and before those
of the later rows: samples appear in row order. So ("command_search", "10") gives value
10 with label "search", and ("uptime", "12345") gives uptime = 12345. -/
theorem registered_rows_sampled (u : Char → Char) :
    (∀ (db : DB) (before : List (String × String)) (key val : String) (after : List RowScan),
      db.Query globalStatusQuery = .ok (before.map Except.ok ++ .ok (key, val) :: after) →
      (∀ r ∈ before, rowStep u r.1 r.2 ≠ .panic) →
      ToLower u key ∈ commandKeys → (parseStatus val).2 = true →
      ScrapeStatus u db =
        ⟨samplesOf u before ++
            ⟨commandDesc, .CounterValue, (parseStatus val).1,
              [String.mk ((ToLower u key).data.drop 8)]⟩ :: (scanLoop u after).sent,
          (scanLoop u after).exit⟩ ∧
      "command_" ++ String.mk ((ToLower u key).data.drop 8) = ToLower u key) ∧
    (∀ (db : DB) (before : List (String × String)) (key val : String) (after : List RowScan)
      (desc : Desc),
      db.Query globalStatusQuery = .ok (before.map Except.ok ++ .ok (key, val) :: after) →
      (∀ r ∈ before, rowStep u r.1 r.2 ≠ .panic) →
      ToLower u key ∉ commandKeys → descs.lookup (ToLower u key) = some desc →
      (parseStatus val).2 = true →
      ScrapeStatus u db =
        ⟨samplesOf u before ++
            ⟨desc, .CounterValue, (parseStatus val).1, []⟩ :: (scanLoop u after).sent,
          (scanLoop u after).exit⟩ ∧
      desc.fqName = "sphinx_status_" ++ ToLower u key ∧ desc.variableLabels = [] ∧
      desc ≠ commandDesc) ∧
    rowStep u "command_search" "10"
      = .next (some ⟨commandDesc, .CounterValue, .fin 10, ["search"]⟩) ∧
    rowStep u "uptime" "12345" = .next (some (uptimeSample (.fin 12345))) ∧
    ScrapeStatus u (dbWithStatus [.ok ("uptime", "12345"), .ok ("Slave_IO_Running", "Connecting"),
        .ok ("command_search", "10")])
      = ⟨[uptimeSample (.fin 12345), ⟨commandDesc, .CounterValue, .fin 10, ["search"]⟩],
          .returned none⟩ ∧
    ScrapeStatus u (dbWithStatus [.ok ("uptime", "5"), .ok ("command_foo", "1")])
      = ⟨[uptimeSample (.fin 5)], .panicked⟩ ∧
    ScrapeStatus u (dbWithStatus [.ok ("command_search", "10"), .error "bad row"])
      = ⟨[⟨commandDesc, .CounterValue, .fin 10, ["search"]⟩],
          .returned (some "bad row")⟩ := by
  refine ⟨fun db before key val after hq hr hk hv => ⟨?_, ?_⟩,
    fun db before key val after desc hq hr hk hl hv => ?_, ?_, ?_, ?_, ?_, ?_⟩
  · exact ScrapeStatus_reached u db before key val after _ hq hr
      (rowStep_command u key val hk hv)
  · have : ∀ k ∈ commandKeys, "command_" ++ String.mk (k.data.drop 8) = k := by decide
    exact this _ hk
  · obtain ⟨h1, h2⟩ := rowStep_own u key val desc hk hl hv
    exact ⟨ScrapeStatus_reached u db before key val after _ hq hr h1, h2⟩
  · rw [rowStep_ascii u Char.toLower _ _ (by decide)]
    decide!
  · rw [rowStep_ascii u Char.toLower _ _ (by decide)]
    decide!
  · rw [ScrapeStatus_dbWithStatus, scanLoop_ascii u Char.toLower _ (by decide)]
    decide!
  · rw [ScrapeStatus_dbWithStatus, scanLoop_ascii u Char.toLower _ (by decide)]
    decide!
  · rw [ScrapeStatus_dbWithStatus, scanLoop_ascii u Char.toLower _ (by decide)]
    decide!

/-- Witness of C7 (amended): ("command_search", "10") reached after ("uptime", "12345") and
followed by a row on which the body panics; ("uptime", "12345") reached first and
followed by a row that does not decode. -/
theorem registered_rows_sampled_witness :
    ScrapeStatus Char.toLower
        (dbWithStatus ([("uptime", "12345")].map Except.ok ++
          .ok ("command_search", "10") :: [.ok ("command_foo", "1")]))
      = ⟨samplesOf Char.toLower [("uptime", "12345")] ++
            ⟨commandDesc, .CounterValue, (parseStatus "10").1,
              [String.mk ((ToLower Char.toLower "command_search").data.drop 8)]⟩ ::
              (scanLoop Char.toLower [.ok ("command_foo", "1")]).sent,
          (scanLoop Char.toLower [.ok ("command_foo", "1")]).exit⟩ ∧
    ScrapeStatus Char.toLower
        (dbWithStatus (([] : List (String × String)).map Except.ok ++
          .ok ("uptime", "12345") :: [.error "bad row"]))
      = ⟨samplesOf Char.toLower [] ++
            ⟨(uptimeSample (.fin 0)).desc, .CounterValue, (parseStatus "12345").1, []⟩ ::
              (scanLoop Char.toLower [.error "bad row"]).sent,
          (scanLoop Char.toLower [.error "bad row"]).exit⟩ :=
  ⟨((registered_rows_sampled Char.toLower).1 _ [("uptime", "12345")] "command_search" "10"
      [.ok ("command_foo", "1")] (dbWithStatus_query _) (by decide!) (by decide)
      (by decide!)).1,
    ((registered_rows_sampled Char.toLower).2.1 _ [] "uptime" "12345" [.error "bad row"]
      (uptimeSample (.fin 0)).desc (dbWithStatus_query _) (by decide) (by decide) (by decide)
      (by decide!)).1⟩

/-- C8: a row that is a miss (its value is rejected, whatever the key; or its lowercased
key lacks the `command_` start and is not registered, whatever the value) sends no
sample and leaves the iteration as it is without that row; a result set whose query and
row decoding succeed never makes `ScrapeStatus` return an error, and one made of misses
only ends with `return nil` and no sample. -/
theorem row_misses_are_skipped (u : Char → Char) :
    (∀ key val, isMiss u key val →
      rowStep u key val = .next none ∧
      ∀ (db db1 : DB) (before after : List RowScan),
        db.Query globalStatusQuery = .ok (before ++ .ok (key, val) :: after) →
        db1.Query globalStatusQuery = .ok (before ++ after) →
        ScrapeStatus u db = ScrapeStatus u db1) ∧
    (∀ (db : DB) (rows : List (String × String)),
      db.Query globalStatusQuery = .ok (rows.map Except.ok) →
      (∀ err, (ScrapeStatus u db).exit ≠ .returned (some err)) ∧
      ((∀ r ∈ rows, isMiss u r.1 r.2) → ScrapeStatus u db = ⟨[], .returned none⟩)) := by
  refine ⟨fun key val h => ⟨rowStep_miss u key val h, fun db db1 before after hq hq1 => ?_⟩,
    fun db rows hq => ⟨fun err => ?_, fun hm => ?_⟩⟩
  · rw [ScrapeStatus_ok u db _ hq, ScrapeStatus_ok u db1 _ hq1]
    exact scanLoop_skip u key val (rowStep_miss u key val h) before after
  · rw [ScrapeStatus_ok u db _ hq]
    exact scanLoop_no_error u rows err
  · rw [ScrapeStatus_ok u db _ hq,
      scanLoop_in_order u rows (fun r hr => by rw [rowStep_miss u r.1 r.2 (hm r hr)]; simp)]
    congr 1
    rw [List.filterMap_eq_nil_iff]
    intro r hr
    rw [rowStep_miss u r.1 r.2 (hm r hr)]

/-- Witness of C8: the miss ("uptime", "n/a") between sampled rows, and a result set of
the misses ("uptime", "n/a") and ("Slave_IO_Running", "Connecting"). -/
theorem row_misses_are_skipped_witness :
    ScrapeStatus Char.toLower
        (dbWithStatus [.ok ("uptime", "5"), .ok ("uptime", "n/a"), .ok ("uptime", "6")])
      = ScrapeStatus Char.toLower (dbWithStatus [.ok ("uptime", "5"), .ok ("uptime", "6")]) ∧
    ScrapeStatus Char.toLower
        (dbWithStatus ([("uptime", "n/a"), ("Slave_IO_Running", "Connecting")].map Except.ok))
      = ⟨[], .returned none⟩ :=
  ⟨((row_misses_are_skipped Char.toLower).1 "uptime" "n/a" (Or.inl (by decide))).2
      (dbWithStatus [.ok ("uptime", "5"), .ok ("uptime", "n/a"), .ok ("uptime", "6")])
      (dbWithStatus [.ok ("uptime", "5"), .ok ("uptime", "6")])
      [.ok ("uptime", "5")] [.ok ("uptime", "6")] (dbWithStatus_query _)
      (dbWithStatus_query _),
    ((row_misses_are_skipped Char.toLower).2
      (dbWithStatus ([("uptime", "n/a"), ("Slave_IO_Running", "Connecting")].map Except.ok))
      [("uptime", "n/a"), ("Slave_IO_Running", "Connecting")] (dbWithStatus_query _)).2
      (by
        intro r hr
        simp only [List.mem_cons, List.mem_singleton, List.not_mem_nil, or_false] at hr
        rcases hr with rfl | rfl
        · exact Or.inl (by decide)
        · exact Or.inr (by decide))⟩

/-- C9: when the case table is idempotent and never yields an ASCII capital (as that of
`unicode.ToLower` does), the row (k, v) has the same outcome as the row (lowercase(k), v):
the loop body does the same on both (same sample, same absence of one), and so does the
row loop wherever the row stands. "Connections" and "connections" resolve to the one
descriptor `sphinx_status_connections`. -/
theorem key_matching_case_insensitive (u : Char → Char) (h1 : ∀ c, u (u c) = u c)
    (h2 : ∀ c, (u c).isUpper = false) :
    (∀ key val, rowStep u key val = rowStep u (ToLower u key) val) ∧
    (∀ key val (before after : List RowScan),
      scanLoop u (before ++ .ok (key, val) :: after)
        = scanLoop u (before ++ .ok (ToLower u key, val) :: after)) ∧
    descs.lookup (ToLower u "Connections") = descs.lookup (ToLower u "connections") ∧
    descs.lookup (ToLower u "Connections")
      = some (NewDesc "sphinx_status_connections" "Connections to Sphinx Server." []) := by
  have hrow : ∀ key val, rowStep u key val = rowStep u (ToLower u key) val := by
    intro key val
    unfold rowStep
    rw [ToLower_idem u h1 h2 key]
  have e1 : ToLower u "Connections" = "connections" :=
    (ToLower_ascii u Char.toLower _ (by decide)).trans (by decide)
  have e2 : ToLower u "connections" = "connections" :=
    (ToLower_ascii u Char.toLower _ (by decide)).trans (by decide)
  refine ⟨hrow, fun key val before after => scanLoop_congr u _ _ _ _ (hrow key val) _ _, ?_, ?_⟩
  · rw [e1, e2]
  · rw [e1]
    decide

/-- Witness of C9 with the ASCII case table, at the key "UpTime". -/
theorem key_matching_case_insensitive_witness :
    rowStep Char.toLower "UpTime" "5" = rowStep Char.toLower (ToLower Char.toLower "UpTime") "5" ∧
    rowStep Char.toLower "UpTime" "5" = .next (some (uptimeSample (.fin 5))) :=
  ⟨(key_matching_case_insensitive Char.toLower (fun c => (toLower_props c).2.2)
      (fun c => (toLower_props c).1)).1 "UpTime" "5", by decide!⟩

/-- C10: for every string without a newline that is none of the eight fixed tokens,
`parseStatus` returns what `strconv.ParseFloat` returns on the whole string (its value,
and ok exactly when the error is nil), because `logRE.Find`, when it matches such a
string, returns the whole string; so the branch on `logRE.Find` and the fallback compute
the same result. With a newline they can differ: on "\n1.5" `Find` returns "1.5", which
parses, while the whole string does not. -/
theorem parseStatus_eq_ParseFloat :
    (∀ data : String, '\n' ∉ data.data → data ∉ fixedTokens →
      parseStatus data = ((ParseFloat data).1, (ParseFloat data).2 == none) ∧
      (∀ m, Find logRE data = some m → m = data)) ∧
    Find logRE "\n1.5" = some "1.5" ∧
    parseStatus "\n1.5" = (.fin (3 / 2), true) ∧
    ParseFloat "\n1.5" = (.fin 0, some .ErrSyntax) := by
  refine ⟨fun data hnl htok => ⟨?_, fun m hm => Find_logRE_whole data m hnl hm⟩,
    by decide, by decide!, by decide⟩
  rw [parseStatus_of_not_token data htok, afterSwitch_eq_ParseFloat data hnl]

/-- Witness of C10 at "42.5": no newline, not a token, parsed as a whole. -/
theorem parseStatus_eq_ParseFloat_witness :
    '\n' ∉ "42.5".data ∧ "42.5" ∉ fixedTokens ∧
    parseStatus "42.5" = ((ParseFloat "42.5").1, (ParseFloat "42.5").2 == none) ∧
    Find logRE "42.5" = some "42.5" :=
  ⟨by decide, by decide,
    (parseStatus_eq_ParseFloat.1 "42.5" (by decide) (by decide)).1, by decide⟩

/-- The model of `strconv.ParseFloat` on some literals: decimals, an exponent out of
range, a hexadecimal float, underscores, an infinity, and strings it rejects. -/
theorem ParseFloat_samples :
    ParseFloat "10" = (.fin 10, none) ∧ ParseFloat "12345" = (.fin 12345, none) ∧
    ParseFloat "42.5" = (.fin (85 / 2), none) ∧ ParseFloat "-0.25e1" = (.fin (-5 / 2), none) ∧
    ParseFloat "1e400" = (.inf false, some .ErrRange) ∧
    ParseFloat "0x1p-2" = (.fin (1 / 4), none) ∧ ParseFloat "1_000" = (.fin 1000, none) ∧
    ParseFloat "_1" = (.fin 0, some .ErrSyntax) ∧ ParseFloat "-Inf" = (.inf true, none) ∧
    ParseFloat "infinit" = (.fin 0, some .ErrSyntax) ∧
    ParseFloat "not-a-number" = (.fin 0, some .ErrSyntax) ∧
    ParseFloat "" = (.fin 0, some .ErrSyntax) := by
  refine ⟨by decide!, by decide!, by decide!, by decide!, by decide!, by decide!, by decide!,
    by decide!, by decide!, by decide!, by decide!, by decide!⟩

end SphinxExporter
